import Mathlib

set_option maxRecDepth 40000

/-!
Verification development for the form-date-picker repository.

The repository is a React date-input component in several near-identical
variants.  The logic verified here is the pure parsing/formatting core:

* the canonical date codec, functions dateToISOString and parseDateFromISO
  (and the wider parseDateString) of src/src/original-date-picker.component.tsx,
* the shortcut token parser parseShortcut of src/src/date-picker-component.tsx,
* the flexible slash-date precedence chain and error handling of handleBlur
  in src/src/date-picker-component.tsx,
* the month/year stepping with day clamping used by the keyboard navigation
  (date-fns addMonths / dayjs add, both of which clamp the day of month).

JavaScript Date values are modelled at date precision plus milliseconds of
day, always in UTC (the model takes the local timezone of the runtime to be
UTC; the functions under verification only use UTC constructors and field
reads of freshly built local-midnight dates, so this is faithful for the
stated theorems).  The ECMA-262 rules that matter are reproduced exactly:
Date.UTC and the multi-argument Date constructor map an integer year
argument y with 0 <= y <= 99 to 1900 + y (MakeFullYear), and both normalize
an out-of-range month by carrying into the year and an out-of-range day by
carrying into the following months (MakeDay).
-/

/-- A pure calendar date: a year (integer), a month and a day of month.
This is the CalendarDate value type of the specification. -/
structure CalendarDate where
  year : Int
  month : Nat
  day : Nat
deriving DecidableEq, Repr

/-- Gregorian leap-year rule, as implemented by the JS Date runtime that
dayjs and date-fns delegate to. -/
def isLeapYear (y : Int) : Bool :=
  (y % 4 == 0 && y % 100 != 0) || y % 400 == 0

/-- Number of days of month m (1-based) of year y. -/
def daysInMonth (y : Int) (m : Nat) : Nat :=
  if m = 2 then (if isLeapYear y then 29 else 28)
  else if m = 4 ∨ m = 6 ∨ m = 9 ∨ m = 11 then 30
  else 31

/-- Validity of a calendar date: month in range and day valid for the
year and month (the invariant of the CalendarDate data model). -/
def CalendarDate.Valid (d : CalendarDate) : Prop :=
  1 ≤ d.month ∧ d.month ≤ 12 ∧ 1 ≤ d.day ∧ d.day ≤ daysInMonth d.year d.month

instance (d : CalendarDate) : Decidable d.Valid := by
  unfold CalendarDate.Valid; infer_instance

/-- The calendar successor of a date. -/
def nextDay (d : CalendarDate) : CalendarDate :=
  if d.day < daysInMonth d.year d.month then ⟨d.year, d.month, d.day + 1⟩
  else if d.month < 12 then ⟨d.year, d.month + 1, 1⟩
  else ⟨d.year + 1, 1, 1⟩

/-- The calendar predecessor of a date. -/
def prevDay (d : CalendarDate) : CalendarDate :=
  if 1 < d.day then ⟨d.year, d.month, d.day - 1⟩
  else if 1 < d.month then ⟨d.year, d.month - 1, daysInMonth d.year (d.month - 1)⟩
  else ⟨d.year - 1, 12, 31⟩

/-- Step a date forward by a number of days. -/
def addDaysN : CalendarDate → Nat → CalendarDate
  | d, 0 => d
  | d, k + 1 => addDaysN (nextDay d) k

/-- Step a date backward by a number of days. -/
def subDaysN : CalendarDate → Nat → CalendarDate
  | d, 0 => d
  | d, k + 1 => subDaysN (prevDay d) k

/-- Step a date by a signed number of days. -/
def addDaysZ (d : CalendarDate) (k : Int) : CalendarDate :=
  if 0 ≤ k then addDaysN d k.toNat else subDaysN d (-k).toNat

/-- The legacy year rule of ECMA-262 MakeFullYear, applied by Date.UTC and
by the multi-argument Date constructor: an integer year from 0 to 99 is
read as 1900 + that year. -/
def jsYearAdjust (y : Int) : Int :=
  if 0 ≤ y ∧ y ≤ 99 then 1900 + y else y

/-- ECMA-262 MakeDay normalization without the year rule: month m0 is
0-based and may be out of range (it carries into the year), and the day may
be out of range (it carries into the following months, day 0 meaning the
last day of the previous month). -/
def normDate (y m0 dd : Int) : CalendarDate :=
  addDaysZ ⟨y + m0 / 12, (m0 % 12).toNat + 1, 1⟩ (dd - 1)

/-- The calendar date denoted by JS new Date(y, m0, dd) (local fields, the
model runs the local timezone at UTC) and by Date.UTC(y, m0, dd, ...):
the MakeFullYear rule followed by MakeDay normalization. -/
def jsNewDate (y m0 dd : Int) : CalendarDate :=
  normDate (jsYearAdjust y) m0 dd

/-- A JS Date value as used by the component: an instant, kept as a UTC
calendar date plus the milliseconds elapsed of that UTC day. -/
structure Instant where
  date : CalendarDate
  msOfDay : Nat
deriving DecidableEq, Repr

/-- The instant produced by Date.UTC(y, m0, dd, h, mi, s, ms) at date
precision: the normalized date together with the milliseconds of day. -/
def mkDateUTC (y m0 dd : Int) (ms : Nat) : Instant :=
  ⟨jsNewDate y m0 dd, ms⟩

/-- JS \d matches exactly the ten ASCII decimal digit characters. -/
def isDigitChar (c : Char) : Bool :=
  c == '0' || c == '1' || c == '2' || c == '3' || c == '4' ||
  c == '5' || c == '6' || c == '7' || c == '8' || c == '9'

/-- Numeric value of an ASCII digit character. -/
def charVal (c : Char) : Nat := c.toNat - 48

/-- The ASCII digit character of a digit value (values above 9 reduced
modulo 10; callers only use digit values). -/
def decChar (n : Nat) : Char :=
  match n % 10 with
  | 0 => '0' | 1 => '1' | 2 => '2' | 3 => '3' | 4 => '4'
  | 5 => '5' | 6 => '6' | 7 => '7' | 8 => '8' | _ => '9'

/-- Value of a string of decimal digit characters, most significant first,
as computed by JS parseInt(s, 10) and Number(s) on all-digit strings. -/
def natOfDigits (cs : List Char) : Nat :=
  cs.foldl (fun a c => 10 * a + charVal c) 0

/-- Two-digit zero padding, as in the fixed-width fields of toISOString. -/
def pad2 (n : Nat) : List Char := [decChar (n / 10), decChar n]

/-- Three-digit zero padding (milliseconds field of toISOString). -/
def pad3 (n : Nat) : List Char := [decChar (n / 100), decChar (n / 10), decChar n]

/-- Four-digit zero padding (plain year field of toISOString). -/
def pad4 (n : Nat) : List Char :=
  [decChar (n / 1000), decChar (n / 100), decChar (n / 10), decChar n]

/-- Six-digit zero padding (expanded year field of toISOString). -/
def pad6 (n : Nat) : List Char :=
  [decChar (n / 100000), decChar (n / 10000), decChar (n / 1000),
   decChar (n / 100), decChar (n / 10), decChar n]

/-- Year rendering of toISOString: years 0 to 9999 print as four padded
digits; other years use the expanded form, a sign followed by six digits. -/
def yearChars (y : Int) : List Char :=
  if 0 ≤ y ∧ y ≤ 9999 then pad4 y.toNat
  else (if y < 0 then '-' else '+') :: pad6 y.natAbs

/-- Time-of-day rendering of toISOString from milliseconds of day. -/
def msToTimeChars (ms : Nat) : List Char :=
  pad2 (ms / 3600000) ++ ':' :: pad2 (ms % 3600000 / 60000) ++
  ':' :: pad2 (ms % 60000 / 1000) ++ '.' :: pad3 (ms % 1000)

/-- Date.prototype.toISOString on a modelled instant. -/
def toISOStringInstant (i : Instant) : String :=
  String.mk (yearChars i.date.year ++ '-' :: pad2 i.date.month ++
    '-' :: pad2 i.date.day ++ 'T' :: msToTimeChars i.msOfDay ++ ['Z'])

/-- The anchored head match of the regex for an ISO date, four digits,
a dash, two digits, a dash, two digits, anything after; on success the
three digit groups are converted with Number, exactly as parseDateFromISO
does with match and split.  Nothing is range checked here. -/
def matchISOHead : List Char → Option (Nat × Nat × Nat)
  | c0 :: c1 :: c2 :: c3 :: c4 :: c5 :: c6 :: c7 :: c8 :: c9 :: _ =>
    if isDigitChar c0 && isDigitChar c1 && isDigitChar c2 && isDigitChar c3 &&
       c4 == '-' && isDigitChar c5 && isDigitChar c6 && c7 == '-' &&
       isDigitChar c8 && isDigitChar c9 then
      some (natOfDigits [c0, c1, c2, c3], natOfDigits [c5, c6], natOfDigits [c8, c9])
    else none
  | _ => none

/-- parseDateFromISO of src/src/original-date-picker.component.tsx: extract
the leading YYYY-MM-DD of the string (returning null when the head regex
does not match) and build a Date at UTC noon from the three numbers with
Date.UTC(year, month - 1, day, 12, 0, 0, 0).  There is no range check. -/
def parseDateFromISO (s : String) : Option Instant :=
  match matchISOHead s.toList with
  | some (y, m, d) => some (mkDateUTC (y : Int) ((m : Int) - 1) (d : Int) 43200000)
  | none => none

/-- The decoded calendar date of a canonical string: the date component of
the Date returned by parseDateFromISO (the fromCanonical direction of the
codec, at calendar-date precision). -/
def fromCanonicalDate (s : String) : Option CalendarDate :=
  (parseDateFromISO s).map Instant.date

/-- dateToISOString of src/src/original-date-picker.component.tsx: read the
year, month and day fields of the given date, rebuild the instant at UTC
midnight with Date.UTC(year, month, day, 0, 0, 0, 0) and render it with
toISOString. -/
def dateToISOString (d : CalendarDate) : String :=
  toISOStringInstant (mkDateUTC d.year ((d.month : Int) - 1) (d.day : Int) 0)

/-- The longest leading run of decimal digits of a character list, together
with the rest; used to model the anchored slash-date regexes. -/
def takeDigits : List Char → List Char × List Char
  | [] => ([], [])
  | c :: cs =>
    if isDigitChar c then
      let p := takeDigits cs
      (c :: p.1, p.2)
    else ([], c :: cs)

/-- Anchored match of the localized date regex of parseDateString, one or
two digit month, slash, one or two digit day, slash, exactly four digit
year, end of string; returns the three numbers. -/
def matchSlashMDY4 (cs : List Char) : Option (Nat × Nat × Nat) :=
  let pm := takeDigits cs
  if 1 ≤ pm.1.length ∧ pm.1.length ≤ 2 then
    match pm.2 with
    | '/' :: r2 =>
      let pd := takeDigits r2
      if 1 ≤ pd.1.length ∧ pd.1.length ≤ 2 then
        match pd.2 with
        | '/' :: r4 =>
          if r4.length = 4 ∧ r4.all isDigitChar then
            some (natOfDigits pm.1, natOfDigits pd.1, natOfDigits r4)
          else none
        | _ => none
      else none
    | _ => none
  else none

/-- parseDateString of src/src/original-date-picker.component.tsx: first try
the ISO head regex (UTC noon, no range check), then the localized M/D/YYYY
regex, whose month and day are range checked against 1..12 and 1..31 before
building Date.UTC(year, month - 1, day, 12, 0, 0, 0); anything else is null. -/
def parseDateString (s : String) : Option Instant :=
  match matchISOHead s.toList with
  | some (y, m, d) => some (mkDateUTC (y : Int) ((m : Int) - 1) (d : Int) 43200000)
  | none =>
    match matchSlashMDY4 s.toList with
    | some (m, d, y) =>
      if m < 1 ∨ 12 < m ∨ d < 1 ∨ 31 < d then none
      else some (mkDateUTC (y : Int) ((m : Int) - 1) (d : Int) 43200000)
    | none => none

/-- The whitespace test of JS String.prototype.trim, restricted to the
whitespace characters that occur in this development. -/
def isJsSpace (c : Char) : Bool :=
  c == ' ' || c == '\t' || c == '\n' || c == '\r'

/-- ASCII lowercasing of one character, the effect of toLowerCase on the
inputs of this component. -/
def lowerChar (c : Char) : Char :=
  if 'A' ≤ c ∧ c ≤ 'Z' then Char.ofNat (c.toNat + 32) else c

/-- String.prototype.trim: drop leading and trailing whitespace. -/
def trimList (cs : List Char) : List Char :=
  ((cs.dropWhile isJsSpace).reverse.dropWhile isJsSpace).reverse

/-- trim as a String function. -/
def trimString (s : String) : String := String.mk (trimList s.toList)

/-- date-fns addMonths and the month unit of dayjs add: step the 0-based
month index by n, carrying into the year, and clamp the day of month to the
last day of the target month. -/
def addMonthsClamp (d : CalendarDate) (n : Int) : CalendarDate :=
  let t := (d.month : Int) - 1 + n
  let y := d.year + t / 12
  let m := (t % 12).toNat + 1
  ⟨y, m, min d.day (daysInMonth y m)⟩

/-- date-fns addYears and the year unit of dayjs add: step the year and
clamp the day of month (this only matters for February 29). -/
def addYearsClamp (d : CalendarDate) (n : Int) : CalendarDate :=
  ⟨d.year + n, d.month, min d.day (daysInMonth (d.year + n) d.month)⟩

/-- parseShortcut of src/src/date-picker-component.tsx: trim and lowercase
the input, match it against the anchored regex of one character d, m or y
followed by any run of digits; no trailing digits means count 0; resolve
with dayjs().add(count, unit) from the injected current instant.  A
non-match is null. -/
def parseShortcut (now : Instant) (input : String) : Option Instant :=
  match (trimList input.toList).map lowerChar with
  | c :: rest =>
    if (c == 'd' || c == 'm' || c == 'y') && rest.all isDigitChar then
      let num := if rest = [] then 0 else natOfDigits rest
      if c == 'd' then some ⟨addDaysN now.date num, now.msOfDay⟩
      else if c == 'm' then some ⟨addMonthsClamp now.date (num : Int), now.msOfDay⟩
      else some ⟨addYearsClamp now.date (num : Int), now.msOfDay⟩
    else none
  | [] => none

/-- Whether the trimmed, lowercased input matches the shortcut regex. -/
def shortcutMatches (s : String) : Bool :=
  match (trimList s.toList).map lowerChar with
  | c :: rest => (c == 'd' || c == 'm' || c == 'y') && rest.all isDigitChar
  | [] => false

/-- Anchored match of the pre-validation regex of handleBlur, one or two
digit month, slash, one or two digit day, optionally a slash and a two to
four digit year; returns month and day values and the year digit group. -/
def matchSlashAny (cs : List Char) : Option (Nat × Nat × Option (List Char)) :=
  let pm := takeDigits cs
  if 1 ≤ pm.1.length ∧ pm.1.length ≤ 2 then
    match pm.2 with
    | '/' :: r2 =>
      let pd := takeDigits r2
      if 1 ≤ pd.1.length ∧ pd.1.length ≤ 2 then
        match pd.2 with
        | [] => some (natOfDigits pm.1, natOfDigits pd.1, none)
        | '/' :: r4 =>
          if 2 ≤ r4.length ∧ r4.length ≤ 4 ∧ r4.all isDigitChar then
            some (natOfDigits pm.1, natOfDigits pd.1, some r4)
          else none
        | _ => none
      else none
    | _ => none
  else none

/-- Outcome of one commit attempt (blur) on the trimmed input text. -/
inductive BlurResult where
  | cleared
  | committed (i : Instant)
  | formatError
deriving DecidableEq, Repr

/-- The decision logic of handleBlur in src/src/date-picker-component.tsx on
the trimmed input value v: empty clears the value; then the shortcut parser;
then the pre-validation of slash inputs, whose out-of-range month or day is
the error Invalid date format; then, in order, the anchored patterns D/D
(year = current year), D/D/2 (year = 2000 + value) and D/D/4, each built
with new Date(year, month - 1, day); any other input goes to the date-fns
locale parser lp, whose NaN result is the same error.  The current instant
and the locale parser are the ambient inputs of the component. -/
def blurCore (now : Instant) (lp : String → Option Instant) (v : String) : BlurResult :=
  if v = "" then .cleared
  else
    match parseShortcut now v with
    | some i => .committed i
    | none =>
      match matchSlashAny v.toList with
      | some (m, d, yo) =>
        if m < 1 ∨ 12 < m ∨ d < 1 ∨ 31 < d then .formatError
        else
          match yo with
          | none => .committed ⟨jsNewDate now.date.year ((m : Int) - 1) (d : Int), 0⟩
          | some yds =>
            if yds.length = 2 then
              .committed ⟨jsNewDate ((natOfDigits yds : Int) + 2000) ((m : Int) - 1) (d : Int), 0⟩
            else if yds.length = 4 then
              .committed ⟨jsNewDate (natOfDigits yds : Int) ((m : Int) - 1) (d : Int), 0⟩
            else
              match lp v with
              | some i => .committed i
              | none => .formatError
      | none =>
        match lp v with
        | some i => .committed i
        | none => .formatError

/-- The ambient inputs of one field instance: the current instant (the model
runs the local timezone at UTC), the date-fns locale parser for format P and
the locale display formatter for format P. -/
structure Env where
  now : Instant
  localeParse : String → Option Instant
  formatP : CalendarDate → String

/-- The Formik-visible state of one field instance: the committed canonical
string, the display buffer, the current error and the touched flag. -/
structure FieldState where
  fieldValue : Option String
  inputValue : String
  error : Option String
  touched : Bool
deriving DecidableEq, Repr

/-- handleBlur of src/src/date-picker-component.tsx as a state transformer:
mark touched, trim the display buffer and commit per blurCore.  A cleared
result stores null and empties the buffer; a committed instant is stored as
its toISOString and the buffer is set to the locale rendering; the error
result only sets the error, leaving the committed value and the display
buffer untouched. -/
def handleBlur (env : Env) (st : FieldState) : FieldState :=
  match blurCore env.now env.localeParse (trimString st.inputValue) with
  | .cleared => { fieldValue := none, inputValue := "", error := none, touched := true }
  | .committed i =>
    { fieldValue := some (toISOStringInstant i), inputValue := env.formatP i.date,
      error := none, touched := true }
  | .formatError => { st with error := some "Invalid date format", touched := true }

/-- handleInputChange of src/src/date-picker-component.tsx: typing replaces
the display buffer and clears any pending error so no error is shown while
the text is being edited. -/
def handleInputChange (st : FieldState) (newValue : String) : FieldState :=
  { st with inputValue := newValue,
            error := if st.error.isSome then none else st.error }

/-- Whether a string is a canonical midnight UTC instant, a well-formed
YYYY-MM-DD head followed by exactly T00:00:00.000Z. -/
def isCanonicalMidnight (s : String) : Bool :=
  (matchISOHead s.toList).isSome && s.toList.drop 10 == "T00:00:00.000Z".toList

section Helpers

theorem decChar_eq_mod (n : Nat) : decChar n = decChar (n % 10) := by
  unfold decChar
  have h : n % 10 % 10 = n % 10 := by omega
  rw [h]

theorem decCharAux : ∀ k, k < 10 → charVal (decChar k) = k ∧ isDigitChar (decChar k) = true := by
  decide

theorem charVal_decChar (n : Nat) : charVal (decChar n) = n % 10 := by
  rw [decChar_eq_mod]
  exact (decCharAux (n % 10) (by omega)).1

theorem isDigitChar_decChar (n : Nat) : isDigitChar (decChar n) = true := by
  rw [decChar_eq_mod]
  exact (decCharAux (n % 10) (by omega)).2

theorem natOfDigits_pad2 (n : Nat) (h : n ≤ 99) : natOfDigits (pad2 n) = n := by
  simp [natOfDigits, pad2, List.foldl, charVal_decChar]
  omega

theorem natOfDigits_pad4 (n : Nat) (h : n ≤ 9999) : natOfDigits (pad4 n) = n := by
  simp [natOfDigits, pad4, List.foldl, charVal_decChar]
  omega

theorem digit_cases {c : Char} (h : isDigitChar c = true) :
    c = '0' ∨ c = '1' ∨ c = '2' ∨ c = '3' ∨ c = '4' ∨
    c = '5' ∨ c = '6' ∨ c = '7' ∨ c = '8' ∨ c = '9' := by
  unfold isDigitChar at h
  simp only [Bool.or_eq_true, beq_iff_eq] at h
  tauto

theorem charVal_le_of_digit {c : Char} (h : isDigitChar c = true) : charVal c ≤ 9 := by
  rcases digit_cases h with h | h | h | h | h | h | h | h | h | h <;> subst h <;> decide

theorem not_space_of_digit {c : Char} (h : isDigitChar c = true) : isJsSpace c = false := by
  rcases digit_cases h with h | h | h | h | h | h | h | h | h | h <;> subst h <;> decide

theorem lowerChar_digit {c : Char} (h : isDigitChar c = true) : lowerChar c = c := by
  rcases digit_cases h with h | h | h | h | h | h | h | h | h | h <;> subst h <;> decide

theorem digit_not_unit {c : Char} (h : isDigitChar c = true) :
    ((c == 'd' || c == 'm' || c == 'y')) = false := by
  rcases digit_cases h with h | h | h | h | h | h | h | h | h | h <;> subst h <;> decide

theorem one_le_daysInMonth (y : Int) (m : Nat) : 1 ≤ daysInMonth y m := by
  unfold daysInMonth
  split
  · split <;> omega
  · split <;> omega

theorem daysInMonth_le_31 (y : Int) (m : Nat) : daysInMonth y m ≤ 31 := by
  unfold daysInMonth
  split
  · split <;> omega
  · split <;> omega

theorem addDaysN_within (y : Int) (m : Nat) :
    ∀ k dd, 1 ≤ dd → dd + k ≤ daysInMonth y m →
      addDaysN ⟨y, m, dd⟩ k = ⟨y, m, dd + k⟩ := by
  intro k
  induction k with
  | zero => intro dd _ _; rfl
  | succ k ih =>
    intro dd h1 h2
    have hlt : dd < daysInMonth y m := by omega
    have hn : nextDay ⟨y, m, dd⟩ = ⟨y, m, dd + 1⟩ := by
      simp [nextDay, hlt]
    simp only [addDaysN, hn]
    rw [ih (dd + 1) (by omega) (by omega)]
    congr 1
    omega

theorem normDate_of_valid (y : Int) (m dd : Nat) (hm1 : 1 ≤ m) (hm2 : m ≤ 12)
    (hd1 : 1 ≤ dd) (hd2 : dd ≤ daysInMonth y m) :
    normDate y ((m : Int) - 1) (dd : Int) = ⟨y, m, dd⟩ := by
  unfold normDate
  have h0 : (0 : Int) ≤ (m : Int) - 1 := by omega
  have hlt : (m : Int) - 1 < 12 := by omega
  rw [Int.ediv_eq_zero_of_lt h0 hlt, Int.emod_eq_of_lt h0 hlt]
  have hm' : ((m : Int) - 1).toNat + 1 = m := by omega
  have hdz : (0 : Int) ≤ (dd : Int) - 1 := by omega
  unfold addDaysZ
  rw [if_pos hdz]
  have hdt : ((dd : Int) - 1).toNat = dd - 1 := by omega
  rw [hdt, hm', add_zero]
  rw [addDaysN_within y m (dd - 1) 1 (le_refl 1) (by omega)]
  congr 1
  omega

theorem jsYearAdjust_of_ge (y : Int) (h : 100 ≤ y) : jsYearAdjust y = y := by
  unfold jsYearAdjust
  rw [if_neg]
  omega

theorem jsNewDate_of_valid (y : Int) (m dd : Nat) (hy : 100 ≤ y) (hm1 : 1 ≤ m)
    (hm2 : m ≤ 12) (hd1 : 1 ≤ dd) (hd2 : dd ≤ daysInMonth y m) :
    jsNewDate y ((m : Int) - 1) (dd : Int) = ⟨y, m, dd⟩ := by
  unfold jsNewDate
  rw [jsYearAdjust_of_ge y hy]
  exact normDate_of_valid y m dd hm1 hm2 hd1 hd2

end Helpers

section ParserLemmas

theorem toList_mk (cs : List Char) : (String.mk cs).toList = cs := rfl

theorem natOfDigits_digits2 (n : Nat) (h : n ≤ 99) :
    natOfDigits [decChar (n / 10), decChar n] = n := by
  simp [natOfDigits, List.foldl, charVal_decChar]
  omega

theorem natOfDigits_digits4 (n : Nat) (h : n ≤ 9999) :
    natOfDigits [decChar (n / 1000), decChar (n / 100), decChar (n / 10), decChar n] = n := by
  simp [natOfDigits, List.foldl, charVal_decChar]
  omega

theorem natOfDigits2_le {a b : Char} (ha : isDigitChar a = true) (hb : isDigitChar b = true) :
    natOfDigits [a, b] ≤ 99 := by
  have h1 := charVal_le_of_digit ha
  have h2 := charVal_le_of_digit hb
  simp [natOfDigits, List.foldl]
  omega

theorem natOfDigits4_le {a b c d : Char} (ha : isDigitChar a = true) (hb : isDigitChar b = true)
    (hc : isDigitChar c = true) (hd : isDigitChar d = true) : natOfDigits [a, b, c, d] ≤ 9999 := by
  have h1 := charVal_le_of_digit ha
  have h2 := charVal_le_of_digit hb
  have h3 := charVal_le_of_digit hc
  have h4 := charVal_le_of_digit hd
  simp [natOfDigits, List.foldl]
  omega

theorem takeDigits_append (cs : List Char) : (takeDigits cs).1 ++ (takeDigits cs).2 = cs := by
  induction cs with
  | nil => rfl
  | cons c cs ih =>
    by_cases h : isDigitChar c = true
    · simp [takeDigits, h, ih]
    · simp only [Bool.not_eq_true] at h
      simp [takeDigits, h]

theorem takeDigits_all (cs : List Char) : (takeDigits cs).1.all isDigitChar = true := by
  induction cs with
  | nil => rfl
  | cons c cs ih =>
    by_cases h : isDigitChar c = true
    · simp [takeDigits, h, ih]
    · simp only [Bool.not_eq_true] at h
      simp [takeDigits, h]

theorem dropWhile_concat_head {c : Char} (hc : isJsSpace c = false) :
    ∀ xs : List Char, ∃ t, (List.dropWhile isJsSpace (xs ++ [c])).reverse = c :: t := by
  intro xs
  induction xs with
  | nil => exact ⟨[], by simp [List.dropWhile_cons, hc]⟩
  | cons x xs ih =>
    by_cases hx : isJsSpace x = true
    · obtain ⟨t, ht⟩ := ih
      exact ⟨t, by simp only [List.cons_append, List.dropWhile_cons, hx, if_true]; exact ht⟩
    · simp only [Bool.not_eq_true] at hx
      refine ⟨xs.reverse ++ [x], ?_⟩
      simp [List.dropWhile_cons, hx, List.reverse_append]

theorem trimList_cons {c : Char} (hc : isJsSpace c = false) (l : List Char) :
    ∃ t, trimList (c :: l) = c :: t := by
  unfold trimList
  rw [List.dropWhile_cons, hc]
  simp only [Bool.false_eq_true, if_false, List.reverse_cons]
  exact dropWhile_concat_head hc l.reverse

theorem parseShortcut_none_of_digit_head (now : Instant) (v : String) {c : Char} {r : List Char}
    (hv : v.toList = c :: r) (hc : isDigitChar c = true) :
    parseShortcut now v = none := by
  unfold parseShortcut
  rw [hv]
  obtain ⟨t, ht⟩ := trimList_cons (not_space_of_digit hc) r
  rw [ht]
  simp only [List.map_cons, lowerChar_digit hc]
  simp [digit_not_unit hc]

theorem matchSlashAny_head {cs : List Char} {x : Nat × Nat × Option (List Char)}
    (h : matchSlashAny cs = some x) : ∃ c r, cs = c :: r ∧ isDigitChar c = true := by
  have happ := takeDigits_append cs
  have hall := takeDigits_all cs
  simp only [matchSlashAny] at h
  split at h
  · cases hm : (takeDigits cs).1 with
    | nil =>
      rename_i h1
      rw [hm] at h1
      simp at h1
    | cons c ds =>
      rw [hm] at happ hall
      simp only [List.all_cons, Bool.and_eq_true] at hall
      rw [List.cons_append] at happ
      exact ⟨c, ds ++ (takeDigits cs).2, happ.symm, hall.1⟩
  · simp at h

theorem matchSlashMDY4_struct {cs : List Char} {x : Nat × Nat × Nat}
    (h : matchSlashMDY4 cs = some x) :
    ∃ mds r2, cs = mds ++ '/' :: r2 ∧ 1 ≤ mds.length ∧ mds.length ≤ 2 := by
  have happ := takeDigits_append cs
  simp only [matchSlashMDY4] at h
  split at h
  · split at h
    · rename_i r2 heq
      have hcond : 1 ≤ (takeDigits cs).1.length ∧ (takeDigits cs).1.length ≤ 2 := by
        assumption
      refine ⟨(takeDigits cs).1, r2, ?_, hcond.1, hcond.2⟩
      rw [heq] at happ
      exact happ.symm
    · simp at h
  · simp at h

theorem matchISOHead_elim {cs : List Char} {y m d : Nat} (h : matchISOHead cs = some (y, m, d)) :
    ∃ c0 c1 c2 c3 c5 c6 c8 c9 rest,
      cs = c0 :: c1 :: c2 :: c3 :: '-' :: c5 :: c6 :: '-' :: c8 :: c9 :: rest ∧
      isDigitChar c0 = true ∧ isDigitChar c1 = true ∧ isDigitChar c2 = true ∧
      isDigitChar c3 = true ∧ isDigitChar c5 = true ∧ isDigitChar c6 = true ∧
      isDigitChar c8 = true ∧ isDigitChar c9 = true ∧
      y = natOfDigits [c0, c1, c2, c3] ∧ m = natOfDigits [c5, c6] ∧ d = natOfDigits [c8, c9] := by
  unfold matchISOHead at h
  split at h
  · rename_i c0 c1 c2 c3 c4 c5 c6 c7 c8 c9 rest
    split at h
    · rename_i hcond
      simp only [Bool.and_eq_true, beq_iff_eq] at hcond
      obtain ⟨⟨⟨⟨⟨⟨⟨⟨⟨h0, h1⟩, h2⟩, h3⟩, h4⟩, h5⟩, h6⟩, h7⟩, h8⟩, h9⟩ := hcond
      simp only [Option.some.injEq, Prod.mk.injEq] at h
      subst h4 h7
      exact ⟨c0, c1, c2, c3, c5, c6, c8, c9, rest, rfl, h0, h1, h2, h3, h5, h6, h8, h9,
        h.1.symm, h.2.1.symm, h.2.2.symm⟩
    · exact absurd h (by simp)
  · exact absurd h (by simp)

theorem matchISOHead_none_of_mdy4 {cs : List Char} {x : Nat × Nat × Nat}
    (h : matchSlashMDY4 cs = some x) : matchISOHead cs = none := by
  obtain ⟨mds, r2, hcs, hlen1, hlen2⟩ := matchSlashMDY4_struct h
  cases hiso : matchISOHead cs with
  | none => rfl
  | some o =>
    obtain ⟨y, m, d⟩ := o
    obtain ⟨c0, c1, c2, c3, c5, c6, c8, c9, rest, hcs2, h0, h1, h2, -, -, -, -, -, -⟩ :=
      matchISOHead_elim hiso
    cases mds with
    | nil => simp at hlen1
    | cons a tl =>
      cases tl with
      | nil =>
        rw [hcs] at hcs2
        simp only [List.cons_append, List.nil_append, List.cons.injEq] at hcs2
        obtain ⟨-, hslash, -⟩ := hcs2
        rw [← hslash] at h1
        exact absurd h1 (by decide)
      | cons b tl2 =>
        cases tl2 with
        | nil =>
          rw [hcs] at hcs2
          simp only [List.cons_append, List.nil_append, List.cons.injEq] at hcs2
          obtain ⟨-, -, hslash, -⟩ := hcs2
          rw [← hslash] at h2
          exact absurd h2 (by decide)
        | cons e tl3 => simp at hlen2

end ParserLemmas

section CodecLemmas

theorem matchISOHead_pads (y m d : Nat) (hy : y ≤ 9999) (hm : m ≤ 99) (hd : d ≤ 99)
    (rest : List Char) :
    matchISOHead (pad4 y ++ '-' :: pad2 m ++ '-' :: pad2 d ++ rest) = some (y, m, d) := by
  have h4 := natOfDigits_digits4 y hy
  have h2m := natOfDigits_digits2 m hm
  have h2d := natOfDigits_digits2 d hd
  simp [pad4, pad2, matchISOHead, isDigitChar_decChar, h4, h2m, h2d]

theorem dateToISOString_toList (dte : CalendarDate) (hv : dte.Valid) (h1 : 100 ≤ dte.year)
    (h2 : dte.year ≤ 9999) :
    (dateToISOString dte).toList =
      pad4 dte.year.toNat ++ '-' :: pad2 dte.month ++ '-' :: pad2 dte.day ++
        'T' :: msToTimeChars 0 ++ ['Z'] := by
  obtain ⟨hm1, hm2, hd1, hd2⟩ := hv
  unfold dateToISOString mkDateUTC
  rw [jsNewDate_of_valid dte.year dte.month dte.day h1 hm1 hm2 hd1 hd2]
  unfold toISOStringInstant yearChars
  rw [if_pos (show (0 : Int) ≤ dte.year ∧ dte.year ≤ 9999 by omega)]
  rfl

theorem parseDateFromISO_eq {s : String} {y m d : Nat} (h : matchISOHead s.toList = some (y, m, d))
    (hy : 100 ≤ y) (hval : (⟨(y : Int), m, d⟩ : CalendarDate).Valid) :
    parseDateFromISO s = some ⟨⟨(y : Int), m, d⟩, 43200000⟩ := by
  obtain ⟨hm1, hm2, hd1, hd2⟩ := hval
  simp only [parseDateFromISO, h]
  unfold mkDateUTC
  rw [jsNewDate_of_valid (y : Int) m d (by omega) hm1 hm2 hd1 hd2]

end CodecLemmas

section ClampLemmas

theorem addMonthsClamp_zero (d : CalendarDate) (hv : d.Valid) : addMonthsClamp d 0 = d := by
  obtain ⟨y, m, dd⟩ := d
  obtain ⟨hm1, hm2, hd1, hd2⟩ := hv
  simp only [CalendarDate.Valid] at hm1 hm2 hd1 hd2
  unfold addMonthsClamp
  simp only [add_zero]
  have h0 : (0 : Int) ≤ (m : Int) - 1 := by omega
  have hlt : (m : Int) - 1 < 12 := by omega
  rw [Int.ediv_eq_zero_of_lt h0 hlt, Int.emod_eq_of_lt h0 hlt]
  have hm' : ((m : Int) - 1).toNat + 1 = m := by omega
  simp only [hm', add_zero]
  rw [Nat.min_eq_left hd2]

theorem addYearsClamp_zero (d : CalendarDate) (hv : d.Valid) : addYearsClamp d 0 = d := by
  obtain ⟨y, m, dd⟩ := d
  obtain ⟨hm1, hm2, hd1, hd2⟩ := hv
  simp only [CalendarDate.Valid] at hm1 hm2 hd1 hd2
  unfold addYearsClamp
  simp only [add_zero]
  rw [Nat.min_eq_left hd2]

end ClampLemmas

/-- C1 counterexample: the round trip fails on the valid CalendarDate
year 50, July 8.  dateToISOString feeds the year through Date.UTC, whose
MakeFullYear rule turns 50 into 1950, so decoding returns 1950-07-08, not
the original date. -/
theorem c1_roundtrip_cex :
    (⟨50, 7, 8⟩ : CalendarDate).Valid ∧
    fromCanonicalDate (dateToISOString ⟨50, 7, 8⟩) = some ⟨1950, 7, 8⟩ ∧
    fromCanonicalDate (dateToISOString ⟨50, 7, 8⟩) ≠ some ⟨50, 7, 8⟩ :=
  ⟨by decide, by decide, by decide⟩

/-- C1 (amended): for every valid CalendarDate whose year is between 100
and 9999, decoding the canonical timestamp produced by encoding the date
yields the date again: fromCanonical (toCanonical d) = d, where encoding
anchors the date at UTC midnight (dateToISOString) and decoding extracts
the YYYY-MM-DD head (parseDateFromISO).  Years 0-99 are shifted to
1900-1999 by the legacy year rule of Date.UTC and years above 9999 print
in the expanded ISO year form that the decoding regex rejects. -/
theorem c1_roundtrip_amended (d : CalendarDate) (hv : d.Valid) (h1 : 100 ≤ d.year)
    (h2 : d.year ≤ 9999) : fromCanonicalDate (dateToISOString d) = some d := by
  obtain ⟨hm1, hm2, hd1, hd2⟩ := hv
  have hd99 : d.day ≤ 99 := by
    have := daysInMonth_le_31 d.year d.month
    omega
  have hiso : matchISOHead (dateToISOString d).toList = some (d.year.toNat, d.month, d.day) := by
    rw [dateToISOString_toList d ⟨hm1, hm2, hd1, hd2⟩ h1 h2]
    exact matchISOHead_pads d.year.toNat d.month d.day (by omega) (by omega) hd99 _
  have hcast : ((d.year.toNat : Int)) = d.year := Int.toNat_of_nonneg (by omega)
  have hval : (⟨(d.year.toNat : Int), d.month, d.day⟩ : CalendarDate).Valid := by
    rw [hcast]
    exact ⟨hm1, hm2, hd1, hd2⟩
  unfold fromCanonicalDate
  rw [parseDateFromISO_eq hiso (by omega) hval]
  simp only [Option.map_some']
  rw [hcast]

/-- C1 witness: the round trip at 2025-07-08. -/
theorem c1_roundtrip_amended_witness :
    (⟨2025, 7, 8⟩ : CalendarDate).Valid ∧
    fromCanonicalDate (dateToISOString ⟨2025, 7, 8⟩) = some ⟨2025, 7, 8⟩ :=
  ⟨by decide, c1_roundtrip_amended ⟨2025, 7, 8⟩ (by decide) (by decide) (by decide)⟩

/-- C2 counterexample: the string 0099-12-31T00:00:00Z begins with a
well-formed YYYY-MM-DD head naming the valid calendar date year 99,
December 31, but decode returns 1999-12-31 because Date.UTC maps the
year argument 99 to 1999. -/
theorem c2_decode_cex :
    (⟨99, 12, 31⟩ : CalendarDate).Valid ∧
    matchISOHead ("0099-12-31T00:00:00Z").toList = some (99, 12, 31) ∧
    fromCanonicalDate "0099-12-31T00:00:00Z" = some ⟨1999, 12, 31⟩ ∧
    fromCanonicalDate "0099-12-31T00:00:00Z" ≠ some ⟨99, 12, 31⟩ :=
  ⟨by decide, by decide, by decide, by decide⟩

/-- C2 (amended): for every input string beginning with a well-formed
YYYY-MM-DD head that names a valid calendar date with year at least 100,
fromCanonical returns exactly the calendar date named by that head,
whatever time-of-day or offset suffix follows; the function reads only
the ten leading characters and uses no local-time operation, so the
result is independent of the local timezone of the consumer. -/
theorem c2_decode_amended (s : String) (y m d : Nat)
    (h : matchISOHead s.toList = some (y, m, d)) (hy : 100 ≤ y)
    (hval : (⟨(y : Int), m, d⟩ : CalendarDate).Valid) :
    fromCanonicalDate s = some ⟨(y : Int), m, d⟩ := by
  unfold fromCanonicalDate
  rw [parseDateFromISO_eq h hy hval]
  rfl

/-- C2 witness: the timezone-shift example of the specification,
2025-07-08T18:30:00Z decodes to July 8, not July 9. -/
theorem c2_decode_amended_witness :
    matchISOHead ("2025-07-08T18:30:00Z").toList = some (2025, 7, 8) ∧
    (⟨2025, 7, 8⟩ : CalendarDate).Valid ∧
    fromCanonicalDate "2025-07-08T18:30:00Z" = some ⟨2025, 7, 8⟩ :=
  ⟨by decide, by decide,
   c2_decode_amended "2025-07-08T18:30:00Z" 2025 7 8 (by decide) (by decide) (by decide)⟩

/-- C7 counterexample: parseDateFromISO has no range validation, so
2025-13-45T00:00:00Z does not decode to null: Date.UTC normalizes month
13 day 45 forward to 2026-02-14. -/
theorem c7_decode_null_cex :
    parseDateFromISO "2025-13-45T00:00:00Z" = some ⟨⟨2026, 2, 14⟩, 43200000⟩ ∧
    parseDateFromISO "2025-13-45T00:00:00Z" ≠ none :=
  ⟨by decide, by decide⟩

/-- C7 (amended): parseDateFromISO returns null exactly when the input
does not begin with a well-formed four-digit dash two-digit dash
two-digit head; when the head matches, the numbers are never range
checked, and out-of-range month or day values are carried forward by
the Date.UTC normalization instead of being rejected. -/
theorem c7_decode_null_amended (s : String) :
    parseDateFromISO s = none ↔ matchISOHead s.toList = none := by
  unfold parseDateFromISO
  cases h : matchISOHead s.toList with
  | none => simp [h]
  | some v =>
    obtain ⟨y, m, d⟩ := v
    simp [h]

/-- C10 counterexample: 2/30/2025 has month in 1..12 and day in 1..31,
but parseDateString does not return that calendar date: Date.UTC
normalizes February 30 forward to March 2. -/
theorem c10_parseDateString_cex :
    parseDateString "2/30/2025" = some ⟨⟨2025, 3, 2⟩, 43200000⟩ ∧
    parseDateString "2/30/2025" ≠ some ⟨⟨2025, 2, 30⟩, 43200000⟩ :=
  ⟨by decide, by decide⟩

/-- C10 (amended): parseDateString also accepts localized M/D/YYYY
strings.  When the matched month and day name a day that exists in that
month and the year is at least 100, it returns exactly that calendar
date anchored at UTC noon; when the month is outside 1..12 or the day
outside 1..31 it returns null.  Days that pass the 1..31 check but do
not exist in the month are normalized forward by Date.UTC, and 4-digit
years below 0100 are shifted to 1900-1999 by the legacy year rule. -/
theorem c10_parseDateString_amended :
    (∀ (s : String) (m d y : Nat), matchSlashMDY4 s.toList = some (m, d, y) →
       1 ≤ m → m ≤ 12 → 1 ≤ d → 100 ≤ y → d ≤ daysInMonth (y : Int) m →
       parseDateString s = some ⟨⟨(y : Int), m, d⟩, 43200000⟩) ∧
    (∀ (s : String) (m d y : Nat), matchSlashMDY4 s.toList = some (m, d, y) →
       (m < 1 ∨ 12 < m ∨ d < 1 ∨ 31 < d) → parseDateString s = none) := by
  constructor
  · intro s m d y hmatch hm1 hm2 hd1 hy hd2
    have h31 := daysInMonth_le_31 (y : Int) m
    simp only [parseDateString, matchISOHead_none_of_mdy4 hmatch, hmatch]
    rw [if_neg (by omega : ¬(m < 1 ∨ 12 < m ∨ d < 1 ∨ 31 < d))]
    unfold mkDateUTC
    rw [jsNewDate_of_valid (y : Int) m d (by omega) hm1 hm2 hd1 hd2]
  · intro s m d y hmatch hbad
    simp only [parseDateString, matchISOHead_none_of_mdy4 hmatch, hmatch]
    rw [if_pos hbad]

/-- C10 witness: 11/25/2025 parses to that date at UTC noon and
13/45/2025 is rejected as null. -/
theorem c10_parseDateString_amended_witness :
    matchSlashMDY4 ("11/25/2025").toList = some (11, 25, 2025) ∧
    parseDateString "11/25/2025" = some ⟨⟨2025, 11, 25⟩, 43200000⟩ ∧
    matchSlashMDY4 ("13/45/2025").toList = some (13, 45, 2025) ∧
    parseDateString "13/45/2025" = none :=
  ⟨by decide,
   c10_parseDateString_amended.1 "11/25/2025" 11 25 2025 (by decide) (by decide) (by decide)
     (by decide) (by decide) (by decide),
   by decide,
   c10_parseDateString_amended.2 "13/45/2025" 13 45 2025 (by decide) (by omega)⟩

/-- C3 counterexample: in src/src/date-picker-component.tsx the commit of
the shortcut token d on blur stores the raw toISOString of the current
instant, not a midnight-anchored string: with the clock at 15:42 UTC the
stored canonical value carries that time of day. -/
theorem c3_canonical_cex :
    (handleBlur ⟨⟨⟨2025, 7, 8⟩, 56520000⟩, fun _ => none, fun _ => ""⟩
        ⟨none, "d", none, false⟩).fieldValue = some "2025-07-08T15:42:00.000Z" ∧
    isCanonicalMidnight "2025-07-08T15:42:00.000Z" = false :=
  ⟨by decide, by decide⟩

/-- C3 (amended): every string produced by the encoder dateToISOString
(the toCanonical of the codec, used on every commit path of the
original-date-picker variant) for a valid date with year 100 to 9999 is
an ISO instant of the exact shape YYYY-MM-DDT00:00:00.000Z, a well-formed
date head followed by a Z-suffixed zero time of day; the
date-picker-component variant instead stores raw toISOString values,
which can carry a nonzero time of day. -/
theorem c3_canonical_amended (d : CalendarDate) (hv : d.Valid) (h1 : 100 ≤ d.year)
    (h2 : d.year ≤ 9999) : isCanonicalMidnight (dateToISOString d) = true := by
  obtain ⟨hm1, hm2, hd1, hd2⟩ := hv
  have hd99 : d.day ≤ 99 := by
    have := daysInMonth_le_31 d.year d.month
    omega
  have hiso : matchISOHead (dateToISOString d).toList = some (d.year.toNat, d.month, d.day) := by
    rw [dateToISOString_toList d ⟨hm1, hm2, hd1, hd2⟩ h1 h2]
    exact matchISOHead_pads d.year.toNat d.month d.day (by omega) (by omega) hd99 _
  have hdrop : (dateToISOString d).toList.drop 10 = "T00:00:00.000Z".toList := by
    rw [dateToISOString_toList d ⟨hm1, hm2, hd1, hd2⟩ h1 h2]
    simp only [pad4, pad2, List.cons_append, List.nil_append, List.drop_succ_cons,
      List.drop_zero]
    decide
  unfold isCanonicalMidnight
  rw [hiso, hdrop]
  simp

/-- C3 witness: the canonical form of the encoding of 2025-07-08. -/
theorem c3_canonical_amended_witness :
    (⟨2025, 7, 8⟩ : CalendarDate).Valid ∧
    isCanonicalMidnight (dateToISOString ⟨2025, 7, 8⟩) = true :=
  ⟨by decide, c3_canonical_amended ⟨2025, 7, 8⟩ (by decide) (by decide) (by decide)⟩

/-- C4: parseShortcut trims and lowercases its input and matches the
anchored pattern of one character d, m or y followed by a run of digits;
with no trailing digits the count defaults to 0, so each of d, m and y
alone resolves to the current instant unchanged (given a valid current
date), and every non-matching input is null, letting callers fall
through to the flexible parser. -/
theorem c4_parseShortcut (now : Instant) (hv : now.date.Valid) :
    parseShortcut now "d" = some now ∧
    parseShortcut now "m" = some now ∧
    parseShortcut now "y" = some now ∧
    parseShortcut now "d0" = parseShortcut now "d" ∧
    parseShortcut now " Y3 " = parseShortcut now "y3" ∧
    (∀ s : String, shortcutMatches s = false → parseShortcut now s = none) := by
  refine ⟨rfl, ?_, ?_, rfl, rfl, ?_⟩
  · show some ⟨addMonthsClamp now.date ((0 : Nat) : Int), now.msOfDay⟩ = some now
    rw [show ((0 : Nat) : Int) = 0 from rfl, addMonthsClamp_zero now.date hv]
  · show some ⟨addYearsClamp now.date ((0 : Nat) : Int), now.msOfDay⟩ = some now
    rw [show ((0 : Nat) : Int) = 0 from rfl, addYearsClamp_zero now.date hv]
  · intro s hs
    unfold shortcutMatches at hs
    unfold parseShortcut
    cases hl : (trimList s.toList).map lowerChar with
    | nil => simp
    | cons c rest =>
      rw [hl] at hs
      simp only [] at hs
      simp [hs]

/-- C4 witness: with the clock at 2025-01-15, the tokens d and m resolve
to today and the non-matching input hello is null. -/
theorem c4_parseShortcut_witness :
    (⟨⟨2025, 1, 15⟩, 0⟩ : Instant).date.Valid ∧
    parseShortcut ⟨⟨2025, 1, 15⟩, 0⟩ "d" = some ⟨⟨2025, 1, 15⟩, 0⟩ ∧
    parseShortcut ⟨⟨2025, 1, 15⟩, 0⟩ "m" = some ⟨⟨2025, 1, 15⟩, 0⟩ ∧
    parseShortcut ⟨⟨2025, 1, 15⟩, 0⟩ "hello" = none :=
  ⟨by decide, (c4_parseShortcut ⟨⟨2025, 1, 15⟩, 0⟩ (by decide)).1,
   (c4_parseShortcut ⟨⟨2025, 1, 15⟩, 0⟩ (by decide)).2.1,
   (c4_parseShortcut ⟨⟨2025, 1, 15⟩, 0⟩ (by decide)).2.2.2.2.2 "hello" (by decide)⟩

/-- C9: month navigation applies calendar-correct stepping with day
clamping: for every valid committed date and delta of plus or minus
one, the result is valid (the function never fails), the linearized
month index moves by exactly delta, and the day of month is the
original day clamped to the length of the target month; in particular
January 31, 2025 stepped one month forward is February 28, 2025. -/
theorem c9_shiftMonth (d : CalendarDate) (hv : d.Valid) (δ : Int) (hδ : δ = 1 ∨ δ = -1) :
    (addMonthsClamp d δ).Valid ∧
    ((addMonthsClamp d δ).year * 12 + ((addMonthsClamp d δ).month : Int)) =
      d.year * 12 + (d.month : Int) + δ ∧
    (addMonthsClamp d δ).day =
      min d.day (daysInMonth (addMonthsClamp d δ).year (addMonthsClamp d δ).month) ∧
    addMonthsClamp ⟨2025, 1, 31⟩ 1 = ⟨2025, 2, 28⟩ := by
  obtain ⟨hm1, hm2, hd1, hd2⟩ := hv
  have h12 : ((12 : Int)) ≠ 0 := by decide
  have hmodnn : 0 ≤ ((d.month : Int) - 1 + δ) % 12 := Int.emod_nonneg _ h12
  have hmodlt : ((d.month : Int) - 1 + δ) % 12 < 12 := Int.emod_lt_of_pos _ (by decide)
  have htn : ((((d.month : Int) - 1 + δ) % 12).toNat : Int) = ((d.month : Int) - 1 + δ) % 12 :=
    Int.toNat_of_nonneg hmodnn
  have hdm1 := one_le_daysInMonth (d.year + ((d.month : Int) - 1 + δ) / 12)
    ((((d.month : Int) - 1 + δ) % 12).toNat + 1)
  have hY : (addMonthsClamp d δ).year = d.year + ((d.month : Int) - 1 + δ) / 12 := rfl
  have hM : (addMonthsClamp d δ).month = ((((d.month : Int) - 1 + δ) % 12).toNat + 1) := rfl
  have hD : (addMonthsClamp d δ).day =
      min d.day (daysInMonth (addMonthsClamp d δ).year (addMonthsClamp d δ).month) := rfl
  refine ⟨⟨?_, ?_, ?_, ?_⟩, ?_, hD, by decide⟩
  · rw [hM]; omega
  · rw [hM]; omega
  · rw [hD, hY, hM]
    omega
  · rw [hD, hY, hM]
    exact Nat.min_le_right _ _
  · rw [hY, hM]
    push_cast
    omega

/-- C9 witness: the month-overflow clamp example of the specification,
January 31, 2025 plus one month. -/
theorem c9_shiftMonth_witness :
    (⟨2025, 1, 31⟩ : CalendarDate).Valid ∧ ((1 : Int) = 1 ∨ (1 : Int) = -1) ∧
    (addMonthsClamp ⟨2025, 1, 31⟩ 1).Valid ∧
    addMonthsClamp ⟨2025, 1, 31⟩ 1 = ⟨2025, 2, 28⟩ :=
  ⟨by decide, Or.inl rfl, (c9_shiftMonth ⟨2025, 1, 31⟩ (by decide) 1 (Or.inl rfl)).1,
   (c9_shiftMonth ⟨2025, 1, 31⟩ (by decide) 1 (Or.inl rfl)).2.2.2⟩

/-- Commit outcome of the no-year slash pattern: once D/D has matched
with in-range month and day, the committed date is built from the
current year without consulting the locale parser. -/
theorem blurCore_noYear (now : Instant) (lp : String → Option Instant) (v : String)
    (m d : Nat) (h : matchSlashAny v.toList = some (m, d, none)) (hy : 100 ≤ now.date.year)
    (hm1 : 1 ≤ m) (hm2 : m ≤ 12) (hd1 : 1 ≤ d) (hd2 : d ≤ daysInMonth now.date.year m) :
    blurCore now lp v = .committed ⟨⟨now.date.year, m, d⟩, 0⟩ := by
  obtain ⟨c, r, hcs, hdig⟩ := matchSlashAny_head h
  have hne : v ≠ "" := by
    intro he
    rw [he] at hcs
    exact absurd hcs (by simp [String.toList])
  have hsc := parseShortcut_none_of_digit_head now v hcs hdig
  have h31 : d ≤ 31 := le_trans hd2 (daysInMonth_le_31 _ _)
  simp only [blurCore, if_neg hne, hsc, h]
  rw [if_neg (by omega : ¬(m < 1 ∨ 12 < m ∨ d < 1 ∨ 31 < d))]
  rw [jsNewDate_of_valid now.date.year m d hy hm1 hm2 hd1 hd2]

/-- C5 counterexample: the input 4/5/0023 matches the four-digit-year
head pattern with the year given as 23, but the committed date has year
1923, because new Date maps integer year arguments 0 to 99 to 1900-1999;
the year is not taken as given. -/
theorem c5_precedence_cex :
    blurCore ⟨⟨2025, 7, 8⟩, 0⟩ (fun _ => none) "4/5/0023" =
      .committed ⟨⟨1923, 4, 5⟩, 0⟩ ∧
    blurCore ⟨⟨2025, 7, 8⟩, 0⟩ (fun _ => none) "4/5/0023" ≠
      .committed ⟨⟨23, 4, 5⟩, 0⟩ :=
  ⟨by decide, by decide⟩

/-- C5 (amended): on the trimmed committed input the flexible parser of
handleBlur tries, after the shortcut parser, the anchored head patterns
D/D (year: current year), D/D/2 (year: 2000 plus the value) and D/D/4 in
that order, and only then the locale grammar; once the slash
pre-validation pattern has matched with an out-of-range month or day, or
one of the three head patterns has matched, the locale parser is never
consulted (an invalid match is an error, not a fallthrough); a four-digit
year below 0100 is shifted to 1900-1999 by the legacy year rule of the
Date constructor, and three-digit-year slash inputs that pass the range
pre-check fall through to the locale grammar. -/
theorem c5_precedence_amended (now : Instant) (lp lp2 : String → Option Instant)
    (hy : 100 ≤ now.date.year) :
    (∀ (v : String) (m d : Nat) (yo : Option (List Char)),
        matchSlashAny v.toList = some (m, d, yo) →
        ((m < 1 ∨ 12 < m ∨ d < 1 ∨ 31 < d) ∨ yo = none ∨
          (∃ yds, yo = some yds ∧ (yds.length = 2 ∨ yds.length = 4))) →
        blurCore now lp v = blurCore now lp2 v) ∧
    blurCore now lp "4/5" = .committed ⟨⟨now.date.year, 4, 5⟩, 0⟩ ∧
    blurCore now lp "4/5/23" = .committed ⟨⟨2023, 4, 5⟩, 0⟩ ∧
    blurCore now lp "4/5/2025" = .committed ⟨⟨2025, 4, 5⟩, 0⟩ ∧
    (∀ v : String, v ≠ "" → parseShortcut now v = none → matchSlashAny v.toList = none →
        blurCore now lp v =
          match lp v with
          | some i => BlurResult.committed i
          | none => BlurResult.formatError) := by
  refine ⟨?_, ?_, rfl, rfl, ?_⟩
  · intro v m d yo h hcond
    obtain ⟨c, r, hcs, hdig⟩ := matchSlashAny_head h
    have hne : v ≠ "" := by
      intro he
      rw [he] at hcs
      exact absurd hcs (by simp [String.toList])
    have hsc := parseShortcut_none_of_digit_head now v hcs hdig
    simp only [blurCore, if_neg hne, hsc, h]
    rcases hcond with hbad | hyo | ⟨yds, hyds, hlen⟩
    · rw [if_pos hbad, if_pos hbad]
    · subst hyo
      rfl
    · subst hyds
      by_cases hr : m < 1 ∨ 12 < m ∨ d < 1 ∨ 31 < d
      · rw [if_pos hr, if_pos hr]
      · rw [if_neg hr, if_neg hr]
        rcases hlen with h2 | h4
        · simp [h2]
        · simp [h4]
  · exact blurCore_noYear now lp "4/5" 4 5 (by decide) hy (by omega) (by omega) (by omega)
      (by unfold daysInMonth; norm_num)
  · intro v hne hsc hnone
    simp only [blurCore, if_neg hne, hsc, hnone]

/-- C5 witness: with the clock in 2025, 4/5 commits April 5 of the
current year and 4/5/23 commits April 5, 2023. -/
theorem c5_precedence_amended_witness :
    (100 : Int) ≤ (⟨⟨2025, 7, 8⟩, 0⟩ : Instant).date.year ∧
    blurCore ⟨⟨2025, 7, 8⟩, 0⟩ (fun _ => none) "4/5" = .committed ⟨⟨2025, 4, 5⟩, 0⟩ ∧
    blurCore ⟨⟨2025, 7, 8⟩, 0⟩ (fun _ => none) "4/5/23" = .committed ⟨⟨2023, 4, 5⟩, 0⟩ :=
  ⟨by decide,
   (c5_precedence_amended ⟨⟨2025, 7, 8⟩, 0⟩ (fun _ => none) (fun _ => none) (by decide)).2.1,
   (c5_precedence_amended ⟨⟨2025, 7, 8⟩, 0⟩ (fun _ => none) (fun _ => none) (by decide)).2.2.1⟩

/-- C6: every slash-delimited numeric input whose month is outside 1..12
or whose day is outside 1..31 commits to the error Invalid date format,
never to a clamped or normalized date, whatever the clock and locale
parser are. -/
theorem c6_range_error (now : Instant) (lp : String → Option Instant) (v : String)
    (m d : Nat) (yo : Option (List Char))
    (h : matchSlashAny v.toList = some (m, d, yo))
    (hbad : m < 1 ∨ 12 < m ∨ d < 1 ∨ 31 < d) :
    blurCore now lp v = .formatError := by
  obtain ⟨c, r, hcs, hdig⟩ := matchSlashAny_head h
  have hne : v ≠ "" := by
    intro he
    rw [he] at hcs
    exact absurd hcs (by simp [String.toList])
  have hsc := parseShortcut_none_of_digit_head now v hcs hdig
  simp only [blurCore, if_neg hne, hsc, h]
  rw [if_pos hbad]

/-- C6 witness: the specification example 13/45/2025 is a FormatError. -/
theorem c6_range_error_witness :
    matchSlashAny ("13/45/2025").toList = some (13, 45, some ['2', '0', '2', '5']) ∧
    blurCore ⟨⟨2025, 7, 8⟩, 0⟩ (fun _ => none) "13/45/2025" = .formatError :=
  ⟨by decide,
   c6_range_error ⟨⟨2025, 7, 8⟩, 0⟩ (fun _ => none) "13/45/2025" 13 45
     (some ['2', '0', '2', '5']) (by decide) (by omega)⟩

/-- C8: a failed commit is atomic: when the trimmed non-empty input fails
both the shortcut parser and the flexible parser, handleBlur leaves the
committed canonical value unchanged, leaves the raw text in the display
buffer, and surfaces the error Invalid date format; and typing always
clears the error, so no error is shown while the text is being edited. -/
theorem c8_error_atomic (env : Env) (st : FieldState)
    (hfail : blurCore env.now env.localeParse (trimString st.inputValue) = .formatError) :
    (handleBlur env st).fieldValue = st.fieldValue ∧
    (handleBlur env st).inputValue = st.inputValue ∧
    (handleBlur env st).error = some "Invalid date format" ∧
    (handleBlur env st).touched = true ∧
    (∀ s : String, (handleInputChange st s).error = none) := by
  simp only [handleBlur, hfail]
  refine ⟨trivial, trivial, trivial, trivial, ?_⟩
  intro s
  unfold handleInputChange
  cases he : st.error <;> simp [he]

/-- C8 witness: committing the unparseable text notadate sets the error
and preserves both the canonical value and the display buffer. -/
theorem c8_error_atomic_witness :
    blurCore (⟨⟨2025, 7, 8⟩, 0⟩ : Instant) (fun _ => none) (trimString "notadate") =
      .formatError ∧
    (handleBlur ⟨⟨⟨2025, 7, 8⟩, 0⟩, fun _ => none, fun _ => ""⟩
        ⟨some "2025-01-01T00:00:00.000Z", "notadate", none, false⟩).fieldValue =
      some "2025-01-01T00:00:00.000Z" ∧
    (handleBlur ⟨⟨⟨2025, 7, 8⟩, 0⟩, fun _ => none, fun _ => ""⟩
        ⟨some "2025-01-01T00:00:00.000Z", "notadate", none, false⟩).inputValue =
      "notadate" ∧
    (handleBlur ⟨⟨⟨2025, 7, 8⟩, 0⟩, fun _ => none, fun _ => ""⟩
        ⟨some "2025-01-01T00:00:00.000Z", "notadate", none, false⟩).error =
      some "Invalid date format" :=
  ⟨by decide,
   (c8_error_atomic ⟨⟨⟨2025, 7, 8⟩, 0⟩, fun _ => none, fun _ => ""⟩
     ⟨some "2025-01-01T00:00:00.000Z", "notadate", none, false⟩ (by decide)).1,
   (c8_error_atomic ⟨⟨⟨2025, 7, 8⟩, 0⟩, fun _ => none, fun _ => ""⟩
     ⟨some "2025-01-01T00:00:00.000Z", "notadate", none, false⟩ (by decide)).2.1,
   (c8_error_atomic ⟨⟨⟨2025, 7, 8⟩, 0⟩, fun _ => none, fun _ => ""⟩
     ⟨some "2025-01-01T00:00:00.000Z", "notadate", none, false⟩ (by decide)).2.2.1⟩
